import Mathlib

/-!
Shallow embedding of the `forget_hir` crate's value semantics and of the
`inline_use_memo` rewriting pass, together with proofs about the properties
stated in the specification.

The embedding follows the Rust sources:
  * `crates/forget_hir/src/instruction.rs` — `Number`, `PrimitiveValue`,
    identifiers, operands, instruction values;
  * `crates/forget_hir/src/inline_use_memo.rs` — the inlining pass.
Supporting types whose source files are not part of the snapshot
(terminals, basic blocks, the block rewriter, `initialize_hir`,
`Function::inline`) are modelled from the specification and marked as such
in their doc comments.
-/

namespace Hir

/-! ## IEEE-754 binary64 bit-level model

A Rust `f64` value is identified with its 64-bit pattern (`to_bits` /
`from_bits` are the identity of this model).  Two facts about binary64 are
used: a pattern encodes NaN iff its exponent field is all ones and its
mantissa is nonzero, and two distinct bit patterns denote the same value
iff both encode a zero (`+0.0` and `-0.0`); NaN compares unequal to
everything under the floating `==`. -/

/-- Bit pattern of `-0.0` (sign bit only). -/
def negZeroBits : Nat := 0x8000000000000000

/-- Bit pattern of Rust's `f64::NAN` constant: the canonical quiet NaN
`0x7ff8000000000000`, the pattern every NaN is canonicalized to. -/
def nanBits : Nat := 0x7ff8000000000000

/-- `f64::is_nan` on a bit pattern: exponent field all ones, mantissa nonzero. -/
def isNaNBits (b : Nat) : Bool :=
  (b / 2 ^ 52) % 2 ^ 11 == 0x7ff && b % 2 ^ 52 != 0

/-- The pattern encodes `+0.0` or `-0.0`. -/
def isZeroBits (b : Nat) : Bool :=
  b == 0 || b == negZeroBits

/-- Rust `f64` equality (`==`) on bit patterns: false whenever either side is
NaN; otherwise the two patterns denote the same value iff they are equal or
both encode a zero. -/
def f64Eq (a b : Nat) : Bool :=
  !isNaNBits a && !isNaNBits b && (a == b || (isZeroBits a && isZeroBits b))

/-- `struct Number(u64)` from instruction.rs: a JavaScript number stored as
the raw bit pattern of its 64-bit floating representation. -/
structure Number where
  bits : Nat
deriving DecidableEq

/-- `impl From<f64> for Number`: NaN inputs are canonicalized to
`f64::NAN`'s bit pattern; all other values keep their bits. -/
def Number.fromF64 (value : Nat) : Number :=
  if isNaNBits value then ⟨nanBits⟩ else ⟨value⟩

/-- `impl From<Number> for f64`: recovers the floating value (its bits) and
asserts that a NaN pattern is the canonical one; `none` models the
assertion failure (panic). -/
def Number.toF64 (number : Number) : Option Nat :=
  if isNaNBits number.bits && number.bits != nanBits then none else some number.bits

/-- `Number::equals`: convert both sides back to `f64` and compare with the
floating `==`. -/
def Number.equals (a b : Number) : Option Bool := do
  let x ← a.toF64
  let y ← b.toF64
  pure (f64Eq x y)

/-- `Number::not_equals`. -/
def Number.not_equals (a b : Number) : Option Bool :=
  (a.equals b).map (fun v => !v)

/-- `Number::is_truthy`: false exactly when the bits are the canonical NaN
or the floating value equals `0.0` or `-0.0`. -/
def Number.is_truthy (n : Number) : Option Bool :=
  (n.toF64).map (fun value =>
    !(n.bits == nanBits || f64Eq value 0 || f64Eq value negZeroBits))

/-- Common shape of the four arithmetic impls (`Add`, `Sub`, `Mul`, `Div`):
convert both operands to `f64`, combine them with the IEEE operation, and
re-canonicalize the result through `Number::from`.  `op` abstracts the
IEEE-754 arithmetic on bit patterns; no property proved here depends on it. -/
def Number.binop (op : Nat → Nat → Nat) (a b : Number) : Option Number := do
  let x ← a.toF64
  let y ← b.toF64
  pure (Number.fromF64 (op x y))

/-- The invariant asserted by `From<Number> for f64`: if the stored bits
decode to NaN they are exactly the canonical NaN bits. -/
def Number.canonical (n : Number) : Prop :=
  isNaNBits n.bits = true → n.bits = nanBits

instance (n : Number) : Decidable n.canonical := by
  unfold Number.canonical; infer_instance

/-- The `Number` values obtainable through the public interface:
`From<f64>` construction and the four arithmetic operators (parameterized
by the IEEE operations on bit patterns). -/
inductive Number.Obtainable (add sub mul div : Nat → Nat → Nat) : Number → Prop
  | ofF64 (v : Nat) : Number.Obtainable add sub mul div (Number.fromF64 v)
  | ofAdd {a b c : Number} : Number.Obtainable add sub mul div a →
      Number.Obtainable add sub mul div b →
      Number.binop add a b = some c → Number.Obtainable add sub mul div c
  | ofSub {a b c : Number} : Number.Obtainable add sub mul div a →
      Number.Obtainable add sub mul div b →
      Number.binop sub a b = some c → Number.Obtainable add sub mul div c
  | ofMul {a b c : Number} : Number.Obtainable add sub mul div a →
      Number.Obtainable add sub mul div b →
      Number.binop mul a b = some c → Number.Obtainable add sub mul div c
  | ofDiv {a b c : Number} : Number.Obtainable add sub mul div a →
      Number.Obtainable add sub mul div b →
      Number.binop div a b = some c → Number.Obtainable add sub mul div c

/-! ## Primitive values -/

/-- `enum PrimitiveValue` (constructor names lower-cased to avoid clashing
with the Lean `String` type). -/
inductive PrimitiveValue where
  | boolean (value : Bool)
  | null
  | number (value : Number)
  | string (value : String)
  | undefined
deriving DecidableEq

/-- The primitive kind (used to state cross-kind properties). -/
inductive PrimitiveKind where
  | boolean
  | null
  | number
  | string
  | undefined
deriving DecidableEq

def PrimitiveValue.kind : PrimitiveValue → PrimitiveKind
  | .boolean _ => .boolean
  | .null => .null
  | .number _ => .number
  | .string _ => .string
  | .undefined => .undefined

/-- `PrimitiveValue::is_truthy`.  The `none` result models the panic inside
`f64::from` for a non-canonical NaN number; Rust's `value.len() != 0` on a
string is byte length, whose zero-ness coincides with `String.length`. -/
def PrimitiveValue.is_truthy : PrimitiveValue → Option Bool
  | .boolean value => some value
  | .number value => value.is_truthy
  | .string value => some (value.length != 0)
  | .null => some false
  | .undefined => some false

/-- `PrimitiveValue::loosely_equals`: the outer `Option` models the panic
reachable through `Number::equals`; the inner `Option` is the Rust
`Option<bool>` result, `none` meaning "unsupported". -/
def PrimitiveValue.loosely_equals : PrimitiveValue → PrimitiveValue → Option (Option Bool)
  | .number left, .number right => (left.equals right).map some
  | .null, .null => some (some true)
  | .undefined, .undefined => some (some true)
  | .boolean left, .boolean right => some (some (left == right))
  | .string left, .string right => some (some (left == right))
  | .null, .undefined => some (some true)
  | .undefined, .null => some (some true)
  | _, _ => some none

/-- `PrimitiveValue::not_loosely_equals`. -/
def PrimitiveValue.not_loosely_equals (a b : PrimitiveValue) : Option (Option Bool) :=
  (a.loosely_equals b).map (fun r => r.map (fun v => !v))

/-- `PrimitiveValue::strictly_equals`: a total boolean (modulo the
`Number::equals` panic), with catch-all `false` for differing kinds. -/
def PrimitiveValue.strictly_equals : PrimitiveValue → PrimitiveValue → Option Bool
  | .number left, .number right => left.equals right
  | .null, .null => some true
  | .undefined, .undefined => some true
  | .boolean left, .boolean right => some (left == right)
  | .string left, .string right => some (left == right)
  | _, _ => some false

/-- `PrimitiveValue::not_strictly_equals`. -/
def PrimitiveValue.not_strictly_equals (a b : PrimitiveValue) : Option Bool :=
  (a.strictly_equals b).map (fun v => !v)

example : Number.fromF64 0x7ff0000000000001 = ⟨nanBits⟩ := by decide
example : Number.equals (Number.fromF64 nanBits) (Number.fromF64 nanBits) = some false := by decide
example : Number.equals (Number.fromF64 0) (Number.fromF64 negZeroBits) = some true := by decide
example : Number.is_truthy (Number.fromF64 0x3ff0000000000000) = some true := by decide
example : PrimitiveValue.strictly_equals (.boolean true) .null = some false := by decide

/-! ## HIR data model

Types from `instruction.rs` plus the terminal/block/function types.  The
files `terminal.rs`, `basic_block.rs`, `function.rs`, `environment.rs` are
not part of the snapshot, so those types are modelled from the
specification (§3) and from their use inside `inline_use_memo.rs`; each
such definition says so in its doc comment. -/

abbrev InstrIx := Nat
abbrev BlockId := Nat
abbrev InstructionId := Nat
abbrev IdentifierId := Nat

/-- `MutableRange`: half-open instruction-id interval.  The source field
`end` is renamed `stop` (`end` is a Lean keyword). -/
structure MutableRange where
  start : InstructionId
  stop : InstructionId
deriving DecidableEq

/-- `MutableRange::new`: the empty/zero range. -/
def MutableRange.new : MutableRange := ⟨0, 0⟩

/-- Modelled from the spec: the type slot of an identifier is either a
resolved type or a type variable; the inlining pass only ever allocates
fresh type variables (`Type::Var(env.next_type_var_id())`), so only that
constructor is embedded. -/
inductive HType where
  | var (id : Nat)
deriving DecidableEq

/-- `ReactiveScope`: an id plus a range. -/
structure ReactiveScope where
  id : Nat
  range : MutableRange
deriving DecidableEq

/-- `IdentifierData`: the shared, mutable part of an identifier. -/
structure IdentifierData where
  mutable_range : MutableRange
  scope : Option ReactiveScope
  type_ : HType
deriving DecidableEq

/-- `Identifier`: unique id, optional display name, shared data (the
`Rc<RefCell<…>>` wrapper is dropped; the pass never mutates it). -/
structure Identifier where
  id : IdentifierId
  name : Option String
  data : IdentifierData
deriving DecidableEq

/-- `enum Effect`. -/
inductive Effect where
  | Freeze
  | Read
  | Capture
  | ConditionallyMutate
  | Mutate
  | Store
deriving DecidableEq

/-- `Operand`: a reference to a prior instruction by index. -/
structure Operand where
  ix : InstrIx
  effect : Option Effect
deriving DecidableEq

/-- `IdentifierOperand`: a reference to an identifier. -/
structure IdentifierOperand where
  identifier : Identifier
  effect : Option Effect
deriving DecidableEq

/-- `enum InstructionKind`. -/
inductive InstructionKind where
  | Const
  | Let
  | Reassign
deriving DecidableEq

/-- `LValue`. -/
structure LValue where
  identifier : IdentifierOperand
  kind : InstructionKind
deriving DecidableEq

/-- `enum PlaceOrSpread`. -/
inductive PlaceOrSpread where
  | Place (op : Operand)
  | Spread (op : Operand)
deriving DecidableEq

/-- `enum JSXAttribute`. -/
inductive JSXAttribute where
  | Spread (argument : Operand)
  | Attribute (name : String) (value : Operand)
deriving DecidableEq

/-- Modelled from the spec: goto kinds — plain fallthrough vs a
"break"-style exit of a scope (`GotoKind::Goto` / `GotoKind::Break` as
used by the pass). -/
inductive GotoKind where
  | Goto
  | Break
deriving DecidableEq

/-- Modelled from the spec: unconditional goto terminal. -/
structure GotoTerminal where
  block : BlockId
  kind : GotoKind
deriving DecidableEq

/-- Modelled from the spec: conditional branch terminal. -/
structure IfTerminal where
  test : Operand
  consequent : BlockId
  alternate : BlockId
deriving DecidableEq

/-- Modelled from the spec: label terminal — body block plus optional
fallthrough block, the structured target for break-style gotos. -/
structure LabelTerminal where
  block : BlockId
  fallthrough : Option BlockId
deriving DecidableEq

/-- Return terminal.  `inline_use_memo` reads `value.ix` directly, so the
value operand is not optional in the code, despite §3's wording. -/
structure ReturnTerminal where
  value : Operand
deriving DecidableEq

/-- Modelled from the spec: the terminal value variants used by this core. -/
inductive TerminalValue where
  | Goto (t : GotoTerminal)
  | If (t : IfTerminal)
  | Label (t : LabelTerminal)
  | Return (t : ReturnTerminal)
deriving DecidableEq

/-- Modelled from the spec: a terminal is an id plus a tagged value. -/
structure Terminal where
  id : Nat
  value : TerminalValue
deriving DecidableEq

/-- Modelled from the spec: the block kind is an abstract tag, only ever
copied verbatim by the pass; a bare `Nat` stands in for it. -/
abbrev BlockKind := Nat

/-- Modelled from the spec: a basic block.  Phi placeholders are not
detailed by the spec and never inspected by the pass, so they are embedded
as unit placeholders. -/
structure BasicBlock where
  id : BlockId
  instructions : List InstrIx
  kind : BlockKind
  phis : List Unit
  predecessors : List BlockId
  terminal : Terminal
deriving DecidableEq

mutual
/-- `enum InstructionValue` (each variant's payload struct is flattened
into constructor fields).  The `BinaryOperator` tag from the estree crate
is never inspected here and is embedded as a `Nat`. -/
inductive InstructionValue where
  | Array (elements : List (Option PlaceOrSpread))
  | Binary (left : Operand) (operator : Nat) (right : Operand)
  | Call (callee : Operand) (arguments : List PlaceOrSpread)
  | DeclareContext (lvalue : LValue)
  | DeclareLocal (lvalue : LValue)
  | Function (dependencies : List Operand) (lowered_function : HFunction)
  | JSXElement (tag : Operand) (props : List JSXAttribute) (children : Option (List Operand))
  | LoadContext (place : Operand)
  | LoadGlobal (name : String)
  | LoadLocal (place : IdentifierOperand)
  | Primitive (value : PrimitiveValue)
  | StoreLocal (lvalue : LValue) (value : Operand)
  | Tombstone

/-- An instruction: id plus tagged value. -/
inductive Instruction where
  | mk (id : InstructionId) (value : InstructionValue)

/-- Modelled from the spec: a function — parameter list, async/generator
flags and an HIR body (`function.rs` is not in the snapshot; the shape
follows §3 and the accesses made by `inline_use_memo`). -/
inductive HFunction where
  | mk (params : List Identifier) (is_async : Bool) (is_generator : Bool) (body : HIRBody)

/-- Modelled from the spec: a function body — entry block id, block map
(embedded as a list in its stored order) and the instruction sequence. -/
inductive HIRBody where
  | mk (entry : BlockId) (blocks : List BasicBlock) (instructions : List Instruction)
end

def Instruction.id : Instruction → InstructionId
  | .mk i _ => i

def Instruction.value : Instruction → InstructionValue
  | .mk _ v => v

def HFunction.params : HFunction → List Identifier
  | .mk p _ _ _ => p

def HFunction.is_async : HFunction → Bool
  | .mk _ a _ _ => a

def HFunction.is_generator : HFunction → Bool
  | .mk _ _ g _ => g

def HFunction.body : HFunction → HIRBody
  | .mk _ _ _ b => b

def HIRBody.entry : HIRBody → BlockId
  | .mk e _ _ => e

def HIRBody.blocks : HIRBody → List BasicBlock
  | .mk _ b _ => b

def HIRBody.instructions : HIRBody → List Instruction
  | .mk _ _ i => i

/-! ## The `inline_use_memo` pass

Embedding of `inline_use_memo.rs`.  Rust's in-place mutation through
`&mut` references becomes explicit state passing: `ScanState` carries the
compilation environment's counters, the two tracked index sets, the shared
instruction vector, the list of moved-in lambda bodies and the rewriter's
side list of newly created blocks.  A closure error leaves the mutations
already made to the shared instruction vector visible, which the `err`
constructor records by carrying the state at failure. -/

/-- Modelled from the spec: the per-compilation-unit monotonic id
generators of the shared `Environment` (identifier, type-variable and
block-id counters). -/
structure Env where
  identifierId : Nat
  typeVarId : Nat
  blockId : Nat
deriving DecidableEq

/-- `env.next_identifier_id()`: returns the current id and bumps the counter. -/
def Env.nextIdentifierId (e : Env) : Nat × Env :=
  (e.identifierId, { e with identifierId := e.identifierId + 1 })

/-- `env.next_type_var_id()`. -/
def Env.nextTypeVarId (e : Env) : Nat × Env :=
  (e.typeVarId, { e with typeVarId := e.typeVarId + 1 })

/-- `env.next_block_id()`. -/
def Env.nextBlockId (e : Env) : Nat × Env :=
  (e.blockId, { e with blockId := e.blockId + 1 })

/-- Modelled from the spec: the single "invalid usage" diagnostic kind,
parameterized by a message and an optional source location
(`Diagnostic::invalid_react(msg, None)` in the pass). -/
inductive Diagnostic where
  | invalidReact (message : String) (span : Option Unit)
deriving DecidableEq

/-- The mutable context threaded through the traversal. -/
structure ScanState where
  env : Env
  use_memo_globals : List InstrIx
  functions : List InstrIx
  instructions : List Instruction
  inlined : List HFunction
  new_blocks : List BasicBlock

/-- `HashSet::insert` on the tracked index sets (only membership is ever
queried, so a duplicate-free list suffices). -/
def insertIx (s : List InstrIx) (x : InstrIx) : List InstrIx :=
  if s.contains x then s else x :: s

/-- Result of a fallible traversal step: success, a typed diagnostic
(carrying the state at failure, since mutations made through `&mut`
persist), or a panic (`unreachable!` / out-of-bounds indexing). -/
inductive ScanOut (α : Type) where
  | ok (st : ScanState) (a : α)
  | err (d : Diagnostic) (st : ScanState)
  | panic

/-- Lines 106–117: the temporary identifier that will hold the useMemo
result; its display name is the literal `"t"`. -/
def mkTemporary (env : Env) : Identifier × Env :=
  let (temporaryId, env) := env.nextIdentifierId
  let (typeVarId, env) := env.nextTypeVarId
  (⟨temporaryId, some "t", ⟨MutableRange.new, none, HType.var typeVarId⟩⟩, env)

/-- Lines 164–193: rewrite every return terminal of the moved-in lambda
body — append a store of the returned operand into the temporary (the
store instruction is pushed onto the lambda's own instruction vector and
reuses the call's instruction id) and replace the terminal with a
`Goto { kind: Break }` to the continuation block. -/
def rewriteReturnsBlocks (instr_id : InstructionId) (temporary : Identifier)
    (continuation_block_id : BlockId) :
    List BasicBlock → List Instruction → List BasicBlock × List Instruction
  | [], instrs => ([], instrs)
  | block :: rest, instrs =>
    match block.terminal.value with
    | .Return rt =>
      let store_ix : InstrIx := instrs.length
      let instrs' := instrs ++
        [Instruction.mk instr_id
          (.StoreLocal ⟨⟨temporary, none⟩, .Reassign⟩ ⟨rt.value.ix, none⟩)]
      let block' := { block with
        instructions := block.instructions ++ [store_ix],
        terminal := ⟨block.terminal.id, .Goto ⟨continuation_block_id, .Break⟩⟩ }
      let r := rewriteReturnsBlocks instr_id temporary continuation_block_id rest instrs'
      (block' :: r.1, r.2)
    | _ =>
      let r := rewriteReturnsBlocks instr_id temporary continuation_block_id rest instrs
      (block :: r.1, r.2)

/-- `rewriteReturnsBlocks` applied to a whole lambda. -/
def rewriteReturns (instr_id : InstructionId) (temporary : Identifier)
    (continuation_block_id : BlockId) : HFunction → HFunction
  | .mk params a g (.mk entry blocks instrs) =>
    let (blocks', instrs') :=
      rewriteReturnsBlocks instr_id temporary continuation_block_id blocks instrs
    .mk params a g (.mk entry blocks' instrs')

/-- Lines 104–242: the body of the `Call` match arm once the pattern has
been recognised (callee is a tracked `useMemo` load, first argument is a
plain place pointing at a tracked function literal at `lambda_ix`).
`i` is the position of the call inside the block's instruction list.

Order is the source's: the call instruction is replaced in place by a load
of the fresh temporary (same index, same id), the function literal ismoved
out and replaced by a tombstone, and only then is the lambda validated —
so a validation failure returns the diagnostic with both mutations already
committed.  On success the block is split: the label terminal replaces the
block's own, the instructions from `i` onward move to the new continuation
block, and a declare of the temporary is appended to the shortened block. -/
def inlineMatchedCall (st : ScanState) (block : BasicBlock) (i : Nat)
    (instr_ix : InstrIx) (lambda_ix : InstrIx) : ScanOut BasicBlock :=
  match st.instructions[instr_ix]? with
  | none => .panic
  | some instr =>
    match mkTemporary st.env with
    | (temporary, env) =>
      match (st.instructions.set instr_ix
          (.mk instr.id (.LoadLocal ⟨temporary, none⟩)))[lambda_ix]? with
      | none => .panic
      | some lambdaInstr =>
        match lambdaInstr.value with
        | .Function _deps lowered =>
          if !lowered.params.isEmpty then
            let instructionsErr := (st.instructions.set instr_ix
              (.mk instr.id (.LoadLocal ⟨temporary, none⟩))).set lambda_ix
                (.mk lambdaInstr.id .Tombstone)
            .err (.invalidReact "useMemo callbacks may not accept any arguments" none)
              { st with env := env, instructions := instructionsErr }
          else if lowered.is_async || lowered.is_generator then
            let instructionsErr := (st.instructions.set instr_ix
              (.mk instr.id (.LoadLocal ⟨temporary, none⟩))).set lambda_ix
                (.mk lambdaInstr.id .Tombstone)
            .err (.invalidReact "useMemo callbacks may not be async or generator functions" none)
              { st with env := env, instructions := instructionsErr }
          else
            match env.nextBlockId with
            | (continuation_block_id, env2) =>
              let instructions := (st.instructions.set instr_ix
                (.mk instr.id (.LoadLocal ⟨temporary, none⟩))).set lambda_ix
                  (.mk lambdaInstr.id .Tombstone)
              let lowered' := rewriteReturns instr.id temporary continuation_block_id lowered
              let terminal_id := block.terminal.id
              let terminal := block.terminal
              let block1 := { block with
                terminal := ⟨terminal_id, .Label ⟨lowered'.body.entry, some continuation_block_id⟩⟩ }
              let continuation_instructions := block1.instructions.drop i
              let block2 := { block1 with instructions := block1.instructions.take i }
              let declare_ix : InstrIx := instructions.length
              let instructions' := instructions ++
                [Instruction.mk instr.id (.DeclareLocal ⟨⟨temporary, none⟩, .Let⟩)]
              let block3 := { block2 with instructions := block2.instructions ++ [declare_ix] }
              let continuation_block : BasicBlock :=
                ⟨continuation_block_id, continuation_instructions, block3.kind, [], [], terminal⟩
              let inlined' := st.inlined ++ [lowered']
              let new_blocks' := st.new_blocks ++ [continuation_block]
              .ok { st with env := env2, instructions := instructions', inlined := inlined', new_blocks := new_blocks' } block3
        | _ => .panic

/-- Lines 80–246: the loop over one block's instruction indices (the list
argument is the tail of the block's instruction snapshot still to visit,
`i` its position).  `LoadGlobal "useMemo"` and `Function` instructions are
tracked by index; a call matching the pattern is inlined and the scan of
the block stops (`break`); anything else is skipped. -/
def scanLoop (st : ScanState) (block : BasicBlock) :
    List InstrIx → Nat → ScanOut BasicBlock
  | [], _ => .ok st block
  | instr_ix :: rest, i =>
    match st.instructions[instr_ix]? with
    | none => .panic
    | some instr =>
      match instr.value with
      | .LoadGlobal name =>
        if name == "useMemo" then
          scanLoop { st with use_memo_globals := insertIx st.use_memo_globals instr_ix }
            block rest (i + 1)
        else
          scanLoop st block rest (i + 1)
      | .Function _ _ =>
        scanLoop { st with functions := insertIx st.functions instr_ix } block rest (i + 1)
      | .Call callee arguments =>
        if !(st.use_memo_globals.contains callee.ix) then
          scanLoop st block rest (i + 1)
        else
          match arguments.head? with
          | some (.Place place) =>
            if !(st.functions.contains place.ix) then
              scanLoop st block rest (i + 1)
            else
              match inlineMatchedCall st block i instr_ix place.ix with
              | .ok st' block' => .ok st' block'
              | .err d st' => .err d st'
              | .panic => .panic
          | _ => scanLoop st block rest (i + 1)
      | _ => scanLoop st block rest (i + 1)

/-- Modelled from the spec (§4.2, `BlockRewriter::try_each_block`): visit
every block of the current map in stored order, let the pass transform it
(this pass always answers `Keep`), abort on the first error without
committing block changes, and merge the side list of new blocks only after
the traversal.  Newly added blocks are not visited by the running
traversal. -/
def tryEachBlock (st : ScanState) : List BasicBlock → ScanOut (List BasicBlock)
  | [] => .ok st []
  | block :: rest =>
    match scanLoop st block block.instructions 0 with
    | .panic => .panic
    | .err d st' => .err d st'
    | .ok st' block' =>
      match tryEachBlock st' rest with
      | .ok st'' rest' => .ok st'' (block' :: rest')
      | .err d st'' => .err d st''
      | .panic => .panic

/-- Modelled from the spec (§4.3 step 10, `Function::inline`): merge a
moved-in lambda body into the parent by disjoint-union append — block ids
are already unique across the whole function tree.  Remapping of the
lambda's instruction indices is not specified and no claim depends on it. -/
def HIRBody.inlineLambda : HIRBody → HFunction → HIRBody
  | .mk entry blocks instrs, lam =>
    .mk entry (blocks ++ lam.body.blocks) (instrs ++ lam.body.instructions)

/-- Successor block ids of a terminal, used by the modelled
re-initialization step. -/
def TerminalValue.successors : TerminalValue → List BlockId
  | .Goto t => [t.block]
  | .If t => [t.consequent, t.alternate]
  | .Label t =>
    match t.fallthrough with
    | some f => [t.block, f]
    | none => [t.block]
  | .Return _ => []

def findBlock (blocks : List BasicBlock) (id : BlockId) : Option BasicBlock :=
  blocks.find? (fun b => b.id == id)

/-- Fuel-bounded breadth-first closure of the successor relation; the fuel
passed by `initHir` dominates the total number of queue insertions. -/
def reachableFrom (blocks : List BasicBlock) :
    Nat → List BlockId → List BlockId → List BlockId
  | 0, _, visited => visited
  | _ + 1, [], visited => visited
  | fuel + 1, id :: queue, visited =>
    if visited.contains id then
      reachableFrom blocks fuel queue visited
    else
      match findBlock blocks id with
      | none => reachableFrom blocks fuel queue (visited ++ [id])
      | some b =>
        reachableFrom blocks fuel (queue ++ b.terminal.value.successors) (visited ++ [id])

/-- Modelled from the spec (§4.2/§6, `initialize_hir`): the consolidated
re-initialization step prunes blocks unreachable from the entry and
recomputes every predecessor set from the terminals; the instruction
sequence is left untouched (§4.2).  The reverse-postorder reordering is
not modelled beyond keeping the stored order — no property proved here
depends on block order. -/
def initHir : HIRBody → HIRBody
  | .mk entry blocks instrs =>
    let reach := reachableFrom blocks (2 * blocks.length + 2) [entry] []
    let kept := blocks.filter (fun b => reach.contains b.id)
    let recomputed := kept.map (fun b =>
      let preds := (kept.filter (fun p => (p.terminal.value.successors).contains b.id)).map (fun p => p.id)
      { b with predecessors := preds })
    .mk entry recomputed instrs

/-- Outcome of the whole pass: Rust's `Result<(), Diagnostic>` together
with the function as left behind by the `&mut` mutation (also on error). -/
inductive InlineOutcome where
  | ok (fn : HFunction) (env : Env)
  | err (d : Diagnostic) (fn : HFunction) (env : Env)
  | panic

/-- `inline_use_memo(env, fun)`.  On closure error the mutations to the
shared instruction vector persist while the rewriter has not committed any
block change (§4.2); on success the side-list blocks are merged, every
moved-in lambda body is appended, and the modelled re-initialization step
runs once — exactly when at least one call was inlined. -/
def inlineUseMemo (env : Env) (f : HFunction) : InlineOutcome :=
  match f with
  | .mk params a g (.mk entry blocks instrs) =>
    let st : ScanState := ⟨env, [], [], instrs, [], []⟩
    match tryEachBlock st blocks with
    | .panic => .panic
    | .err d st' =>
      .err d (.mk params a g (.mk entry blocks st'.instructions)) st'.env
    | .ok st' blocks' =>
      let merged := blocks' ++ st'.new_blocks
      if st'.inlined.isEmpty then
        .ok (.mk params a g (.mk entry merged st'.instructions)) st'.env
      else
        let body := st'.inlined.foldl HIRBody.inlineLambda (.mk entry merged st'.instructions)
        .ok (.mk params a g (initHir body)) st'.env

/-! ## Concrete fixtures

Small concrete functions used by the witnesses and counterexamples:
`fGood` is the simple `f(); const x = useMemo(() => { return true; }); …`
shape, `fAsync` the same with an async lambda. -/

def env0 : Env := ⟨10, 20, 30⟩

/-- The temporary the pass allocates first when run with `env0`. -/
def tmp0 : Identifier := ⟨10, some "t", ⟨MutableRange.new, none, HType.var 20⟩⟩

def lamGood : HFunction :=
  .mk [] false false
    (.mk 5 [⟨5, [0], 0, [], [], ⟨6, .Return ⟨⟨0, none⟩⟩⟩⟩]
      [.mk 7 (.Primitive (.boolean true))])

def lamAsync : HFunction := .mk [] true false (.mk 5 [] [])

def lamWithParam : HFunction :=
  .mk [⟨42, some "x", ⟨MutableRange.new, none, HType.var 0⟩⟩] false false (.mk 5 [] [])

/-- The single caller block of the fixtures. -/
def bb0 : BasicBlock := ⟨0, [0, 1, 2], 0, [], [], ⟨4, .Return ⟨⟨2, none⟩⟩⟩⟩

def mkCallFixture (lamInstr : Instruction) : HFunction :=
  .mk [] false false
    (.mk 0 [bb0]
      [.mk 1 (.LoadGlobal "useMemo"), lamInstr, .mk 3 (.Call ⟨0, none⟩ [.Place ⟨1, none⟩])])

def fGood : HFunction := mkCallFixture (.mk 2 (.Function [] lamGood))

def fAsync : HFunction := mkCallFixture (.mk 2 (.Function [] lamAsync))

def fParam : HFunction := mkCallFixture (.mk 2 (.Function [] lamWithParam))

/-- A call whose first argument is a spread: left alone by the pass. -/
def fSpread : HFunction :=
  .mk [] false false
    (.mk 0 [⟨0, [0, 1, 2], 0, [], [], ⟨4, .Return ⟨⟨2, none⟩⟩⟩⟩]
      [.mk 1 (.LoadGlobal "useMemo"), .mk 2 (.Function [] lamGood),
        .mk 3 (.Call ⟨0, none⟩ [.Spread ⟨1, none⟩])])

example :
    inlineUseMemo env0 fAsync =
      .err (.invalidReact "useMemo callbacks may not be async or generator functions" none)
        (.mk [] false false
          (.mk 0 [⟨0, [0, 1, 2], 0, [], [], ⟨4, .Return ⟨⟨2, none⟩⟩⟩⟩]
            [.mk 1 (.LoadGlobal "useMemo"), .mk 2 .Tombstone,
              .mk 3 (.LoadLocal ⟨tmp0, none⟩)]))
        ⟨11, 21, 30⟩ := by rfl

example :
    inlineUseMemo env0 fGood =
      .ok (.mk [] false false
        (.mk 0
          [⟨0, [0, 1, 3], 0, [], [], ⟨4, .Label ⟨5, some 30⟩⟩⟩,
            ⟨30, [2], 0, [], [0, 5], ⟨4, .Return ⟨⟨2, none⟩⟩⟩⟩,
            ⟨5, [0, 1], 0, [], [0], ⟨6, .Goto ⟨30, .Break⟩⟩⟩]
          [.mk 1 (.LoadGlobal "useMemo"), .mk 2 .Tombstone,
            .mk 3 (.LoadLocal ⟨tmp0, none⟩),
            .mk 3 (.DeclareLocal ⟨⟨tmp0, none⟩, .Let⟩),
            .mk 7 (.Primitive (.boolean true)),
            .mk 3 (.StoreLocal ⟨⟨tmp0, none⟩, .Reassign⟩ ⟨0, none⟩)]))
        ⟨11, 21, 31⟩ := by rfl

example :
    inlineUseMemo env0 fSpread =
      .ok (.mk [] false false
        (.mk 0 [⟨0, [0, 1, 2], 0, [], [], ⟨4, .Return ⟨⟨2, none⟩⟩⟩⟩]
          [.mk 1 (.LoadGlobal "useMemo"), .mk 2 (.Function [] lamGood),
            .mk 3 (.Call ⟨0, none⟩ [.Spread ⟨1, none⟩])]))
        ⟨10, 20, 30⟩ := by rfl

/-! ## Helper lemmas for the number semantics -/

lemma isNaNBits_nanBits : isNaNBits nanBits = true := by decide

lemma isNaNBits_zeroBits : isNaNBits 0 = false := by decide

lemma isNaNBits_negZeroBits : isNaNBits negZeroBits = false := by decide

/-- `Number::from` always yields canonical bits. -/
lemma fromF64_canonical (v : Nat) : (Number.fromF64 v).canonical := by
  unfold Number.fromF64 Number.canonical
  by_cases h : isNaNBits v = true
  · simp [h]
  · simp [h]

/-- On canonical numbers, the `f64` conversion succeeds (the assertion holds). -/
lemma toF64_of_canonical {n : Number} (h : n.canonical) : n.toF64 = some n.bits := by
  unfold Number.toF64
  by_cases hn : isNaNBits n.bits = true
  · simp [hn, h hn]
  · simp [hn]

/-- A number whose construction input is not NaN keeps its bits. -/
lemma fromF64_of_not_nan {v : Nat} (h : isNaNBits v = false) : Number.fromF64 v = ⟨v⟩ := by
  simp [Number.fromF64, h]

lemma fromF64_of_nan {v : Nat} (h : isNaNBits v = true) : Number.fromF64 v = ⟨nanBits⟩ := by
  simp [Number.fromF64, h]

/-- The boolean computed by `Number::is_truthy` on a constructed number. -/
lemma is_truthy_fromF64 (v : Nat) :
    Number.is_truthy (Number.fromF64 v) =
      some (!(isNaNBits v || v == 0 || v == negZeroBits)) := by
  by_cases h : isNaNBits v = true
  · rw [fromF64_of_nan h, h]
    simp only [Bool.true_or, Bool.not_true]
    decide
  · have hfalse : isNaNBits v = false := by simpa using h
    have hvnan : (v == nanBits) = false := by
      simp only [beq_eq_false_iff_ne, ne_eq]
      intro hEq
      rw [hEq, isNaNBits_nanBits] at hfalse
      cases hfalse
    rw [fromF64_of_not_nan hfalse, hfalse]
    simp only [Number.is_truthy, Number.toF64, hfalse, Bool.false_and, Bool.false_eq_true,
      if_neg, Option.map_some', Bool.false_or]
    cases h0 : (v == 0) <;> cases hz : (v == negZeroBits) <;>
      simp_all [f64Eq, isZeroBits, isNaNBits_zeroBits, isNaNBits_negZeroBits, hvnan]

/-! ## Claim C5 -/

/-- C5 counterexample: both operands are canonicalized to identical NaN bits,
yet `Number::equals` converts back to `f64` and compares with the floating
`==`, under which NaN is not equal to NaN — so `equals(NaN, NaN)` is
`false` on the code, not `true` as claimed. -/
theorem c5_counterexample :
    Number.fromF64 0x7ff0000000000001 = Number.fromF64 nanBits ∧
    Number.equals (Number.fromF64 0x7ff0000000000001) (Number.fromF64 nanBits) = some false := by
  decide

/-- C5 (amended): constructing a `Number` from any NaN bit pattern yields the
one canonical pattern (identical representation for all NaNs);
`equals(0.0, -0.0)` is true while the two zeros retain distinct bit
patterns; `is_truthy` of a constructed number is false exactly when the
input was NaN or a signed zero (so `is_truthy(1.0)` is true); but
`equals(NaN, NaN)` is *false*, since `equals` uses the floating `==` after
conversion, not bit equality. -/
theorem c5_number_semantics :
    (∀ b1 b2 : Nat, isNaNBits b1 = true → isNaNBits b2 = true →
      Number.fromF64 b1 = Number.fromF64 b2 ∧ Number.fromF64 b1 = ⟨nanBits⟩) ∧
    Number.equals (Number.fromF64 nanBits) (Number.fromF64 nanBits) = some false ∧
    Number.equals (Number.fromF64 0) (Number.fromF64 negZeroBits) = some true ∧
    (Number.fromF64 0).bits ≠ (Number.fromF64 negZeroBits).bits ∧
    (∀ v : Nat, Number.is_truthy (Number.fromF64 v) =
      some (!(isNaNBits v || v == 0 || v == negZeroBits))) ∧
    Number.is_truthy (Number.fromF64 0x3ff0000000000000) = some true := by
  refine ⟨?_, by decide, by decide, by decide, is_truthy_fromF64, by decide⟩
  intro b1 b2 h1 h2
  exact ⟨by rw [fromF64_of_nan h1, fromF64_of_nan h2], fromF64_of_nan h1⟩

/-- C5 witness: the amended statement's NaN-canonicalization clause applied
to two concrete distinct NaN patterns. -/
theorem c5_number_semantics_witness :
    isNaNBits 0x7ff0000000000001 = true ∧ isNaNBits 0xfff8000000000042 = true ∧
    (Number.fromF64 0x7ff0000000000001 = Number.fromF64 0xfff8000000000042 ∧
      Number.fromF64 0x7ff0000000000001 = ⟨nanBits⟩) :=
  ⟨by decide, by decide,
    c5_number_semantics.1 0x7ff0000000000001 0xfff8000000000042 (by decide) (by decide)⟩

/-! ## Claim C2 -/

/-- C2 counterexample: `strictly_equals` has a catch-all returning the plain
boolean `false`, so a cross-kind pairing yields a false boolean rather than
the absent "unsupported" result the claim asserts. -/
theorem c2_counterexample :
    PrimitiveValue.strictly_equals (.boolean true) (.string "1") = some false := by
  decide

/-- C2 (amended): across differing primitive kinds, loose equality returns
the absent "unsupported" result except for the null/undefined pairing,
while strict equality is total and returns the boolean `false` for every
cross-kind pairing (including null/undefined). -/
theorem c2_cross_kind_equality (a b : PrimitiveValue) (hk : a.kind ≠ b.kind) :
    ((¬(a = .null ∧ b = .undefined) ∧ ¬(a = .undefined ∧ b = .null)) →
      a.loosely_equals b = some none) ∧
    a.strictly_equals b = some false := by
  cases a <;> cases b <;>
    simp_all [PrimitiveValue.kind, PrimitiveValue.loosely_equals,
      PrimitiveValue.strictly_equals]

/-- C2 witness: the amended statement at a concrete number/string pairing. -/
theorem c2_cross_kind_equality_witness :
    (PrimitiveValue.number ⟨0⟩).kind ≠ (PrimitiveValue.string "x").kind ∧
    (((¬(PrimitiveValue.number ⟨0⟩ = .null ∧ PrimitiveValue.string "x" = .undefined) ∧
        ¬(PrimitiveValue.number ⟨0⟩ = .undefined ∧ PrimitiveValue.string "x" = .null)) →
      (PrimitiveValue.number ⟨0⟩).loosely_equals (.string "x") = some none) ∧
    (PrimitiveValue.number ⟨0⟩).strictly_equals (.string "x") = some false) :=
  ⟨by decide, c2_cross_kind_equality (.number ⟨0⟩) (.string "x") (by decide)⟩

/-! ## Claim C9 -/

/-- C9: truthiness of primitive values — a boolean is its own truthiness, a
string is falsy exactly when empty, null and undefined are always falsy,
and a (canonical) number is falsy exactly when its bits are the canonical
NaN or its floating value is `0.0` or `-0.0`. -/
theorem c9_primitive_truthiness :
    (∀ b : Bool, PrimitiveValue.is_truthy (.boolean b) = some b) ∧
    (∀ s : String, (PrimitiveValue.is_truthy (.string s) = some false ↔ s = "")) ∧
    PrimitiveValue.is_truthy .null = some false ∧
    PrimitiveValue.is_truthy .undefined = some false ∧
    (∀ n : Number, n.canonical →
      (PrimitiveValue.is_truthy (.number n) = some false ↔
        (n.bits = nanBits ∨ n.bits = 0 ∨ n.bits = negZeroBits))) := by
  refine ⟨fun b => rfl, ?_, rfl, rfl, ?_⟩
  · intro s
    show some (s.length != 0) = some false ↔ s = ""
    rw [Option.some_inj, bne_eq_false_iff_eq]
    exact ⟨fun h => String.ext (List.length_eq_zero.mp h), fun h => by subst h; rfl⟩
  · intro n h
    show n.is_truthy = some false ↔ _
    rw [Number.is_truthy, toF64_of_canonical h, Option.map_some', Option.some_inj]
    by_cases hb : n.bits = nanBits
    · simp [hb]
    · have hnan : isNaNBits n.bits = false := by
        rcases hc : isNaNBits n.bits with _ | _
        · rfl
        · exact absurd (h hc) hb
      have hvnan : (n.bits == nanBits) = false := by simpa using hb
      cases h0 : (n.bits == 0) <;> cases hz : (n.bits == negZeroBits) <;>
        simp_all [f64Eq, isZeroBits, isNaNBits_zeroBits, isNaNBits_negZeroBits]

/-- C9 witness: the number clause at the canonical NaN and the string clause
at the empty string, both discharged concretely. -/
theorem c9_primitive_truthiness_witness :
    (Number.mk nanBits).canonical ∧
    (PrimitiveValue.is_truthy (.number ⟨nanBits⟩) = some false ↔
      ((nanBits : Nat) = nanBits ∨ (nanBits : Nat) = 0 ∨ (nanBits : Nat) = negZeroBits)) :=
  ⟨by decide, c9_primitive_truthiness.2.2.2.2 ⟨nanBits⟩ (by decide)⟩

/-! ## Claim C10 -/

/-- Any result of `Number::binop` is canonical, whatever the IEEE operation
returns, because it passes through `Number::from`. -/
lemma binop_some_canonical {op : Nat → Nat → Nat} {a b c : Number}
    (h : Number.binop op a b = some c) : c.canonical := by
  unfold Number.binop at h
  cases ha : a.toF64 with
  | none => rw [ha] at h; cases h
  | some x =>
    cases hb : b.toF64 with
    | none => rw [ha, hb] at h; cases h
    | some y =>
      rw [ha, hb] at h
      simp at h
      rw [← h]
      exact fromF64_canonical _

/-- C10: every `Number` obtainable through the public interface
(`From<f64>` and the arithmetic operators) has canonical bits, so the
conversion assertion holds on it and `equals`, `not_equals`, `is_truthy`
and the arithmetic operators never panic on such values. -/
theorem c10_obtainable_canonical (add sub mul div : Nat → Nat → Nat)
    (n : Number) (hn : Number.Obtainable add sub mul div n) :
    n.canonical ∧ n.toF64 = some n.bits ∧
    (∀ m : Number, Number.Obtainable add sub mul div m →
      (n.equals m).isSome ∧ (n.not_equals m).isSome ∧
      (Number.binop add n m).isSome ∧ (Number.binop sub n m).isSome ∧
      (Number.binop mul n m).isSome ∧ (Number.binop div n m).isSome) ∧
    (n.is_truthy).isSome := by
  have canon : ∀ k : Number, Number.Obtainable add sub mul div k → k.canonical := by
    intro k hk
    induction hk with
    | ofF64 v => exact fromF64_canonical v
    | ofAdd _ _ h _ _ => exact binop_some_canonical h
    | ofSub _ _ h _ _ => exact binop_some_canonical h
    | ofMul _ _ h _ _ => exact binop_some_canonical h
    | ofDiv _ _ h _ _ => exact binop_some_canonical h
  have hc := canon n hn
  have hto := toF64_of_canonical hc
  refine ⟨hc, hto, ?_, ?_⟩
  · intro m hm
    have hmc := toF64_of_canonical (canon m hm)
    refine ⟨?_, ?_, ?_, ?_, ?_, ?_⟩ <;>
      simp [Number.equals, Number.not_equals, Number.binop, hto, hmc]
  · simp [Number.is_truthy, hto]

/-- C10 witness: the theorem applied to `Number::from(1.0)` with a concrete
stand-in for the IEEE operations. -/
theorem c10_obtainable_canonical_witness :
    Number.Obtainable (fun a _ => a) (fun a _ => a) (fun a _ => a) (fun a _ => a)
      (Number.fromF64 0x3ff0000000000000) ∧
    (Number.fromF64 0x3ff0000000000000).canonical :=
  ⟨Number.Obtainable.ofF64 0x3ff0000000000000,
    (c10_obtainable_canonical (fun a _ => a) (fun a _ => a) (fun a _ => a) (fun a _ => a)
      (Number.fromF64 0x3ff0000000000000)
      (Number.Obtainable.ofF64 0x3ff0000000000000)).1⟩

/-! ## Helper lemmas for the inlining pass -/

/-- The temporary identifier `mkTemporary` builds from an environment,
spelled out. -/
def tempOf (e : Env) : Identifier :=
  ⟨e.identifierId, some "t", ⟨MutableRange.new, none, HType.var e.typeVarId⟩⟩

lemma mkTemporary_eq (e : Env) :
    mkTemporary e = (tempOf e, ⟨e.identifierId + 1, e.typeVarId + 1, e.blockId⟩) := rfl

/-- The instruction vector after a successful match: call slot replaced in
place by the load, lambda slot tombstoned, declare appended. -/
def instrsAfterMatch (st : ScanState) (cIx lIx : InstrIx)
    (callId lamId : InstructionId) : List Instruction :=
  ((st.instructions.set cIx (.mk callId (.LoadLocal ⟨tempOf st.env, none⟩))).set lIx
      (.mk lamId .Tombstone)) ++
    [.mk callId (.DeclareLocal ⟨⟨tempOf st.env, none⟩, .Let⟩)]

/-- Forward computation of `inlineMatchedCall` on a successful match: the
call slot is overwritten in place (same instruction id) with a load of the
fresh temporary, the lambda slot becomes a tombstone keeping its id, a
declare of the temporary is appended, the rewritten lambda is recorded for
merging, and the continuation block (holding the instructions from the
call position onward and the block's original terminal) is added to the
rewriter's side list while the visited block keeps the prefix, gains the
declare index and ends in the label terminal. -/
lemma inlineMatchedCall_eq_ok
    (st : ScanState) (block : BasicBlock) (i : Nat) (cIx lIx : InstrIx)
    (callInstr : Instruction) (lamId : InstructionId)
    (deps : List Operand) (lowered : HFunction)
    (hc : st.instructions[cIx]? = some callInstr)
    (hl : st.instructions[lIx]? = some (.mk lamId (.Function deps lowered)))
    (hne : cIx ≠ lIx)
    (hp : lowered.params = [])
    (ha : lowered.is_async = false)
    (hg : lowered.is_generator = false) :
    inlineMatchedCall st block i cIx lIx = .ok
      { st with
        env := ⟨st.env.identifierId + 1, st.env.typeVarId + 1, st.env.blockId + 1⟩,
        instructions := instrsAfterMatch st cIx lIx callInstr.id lamId,
        inlined := st.inlined ++
          [rewriteReturns callInstr.id (tempOf st.env) st.env.blockId lowered],
        new_blocks := st.new_blocks ++
          [⟨st.env.blockId, block.instructions.drop i, block.kind, [], [],
            block.terminal⟩] }
      { block with
        instructions := block.instructions.take i ++
          [((st.instructions.set cIx
              (.mk callInstr.id (.LoadLocal ⟨tempOf st.env, none⟩))).set lIx
                (.mk lamId .Tombstone)).length],
        terminal := ⟨block.terminal.id,
          .Label ⟨(rewriteReturns callInstr.id (tempOf st.env)
            st.env.blockId lowered).body.entry, some st.env.blockId⟩⟩ } := by
  unfold inlineMatchedCall
  rw [hc]
  simp only [mkTemporary_eq, Instruction.id, Instruction.value]
  rw [List.getElem?_set_ne hne, hl]
  simp only [Instruction.id, Instruction.value, hp, ha, hg, List.isEmpty_nil,
    Bool.not_true, Bool.false_eq_true, if_false, Bool.or_self, Env.nextBlockId,
    instrsAfterMatch, tempOf]

lemma instrsAfterMatch_length (st : ScanState) (cIx lIx : InstrIx)
    (callId lamId : InstructionId) :
    (instrsAfterMatch st cIx lIx callId lamId).length = st.instructions.length + 1 := by
  simp [instrsAfterMatch]

lemma instrsAfterMatch_call (st : ScanState) (cIx lIx : InstrIx)
    (callId lamId : InstructionId)
    (hclt : cIx < st.instructions.length) (hne : cIx ≠ lIx) :
    (instrsAfterMatch st cIx lIx callId lamId)[cIx]? =
      some (.mk callId (.LoadLocal ⟨tempOf st.env, none⟩)) := by
  unfold instrsAfterMatch
  rw [List.getElem?_append_left (by simpa using hclt),
    List.getElem?_set_ne (Ne.symm hne), List.getElem?_set_self hclt]

lemma instrsAfterMatch_lambda (st : ScanState) (cIx lIx : InstrIx)
    (callId lamId : InstructionId)
    (hllt : lIx < st.instructions.length) :
    (instrsAfterMatch st cIx lIx callId lamId)[lIx]? = some (.mk lamId .Tombstone) := by
  unfold instrsAfterMatch
  rw [List.getElem?_append_left (by simpa using hllt),
    List.getElem?_set_self (by simpa using hllt)]

lemma instrsAfterMatch_other (st : ScanState) (cIx lIx j : InstrIx)
    (callId lamId : InstructionId)
    (hjc : j ≠ cIx) (hjl : j ≠ lIx) (hjlt : j < st.instructions.length) :
    (instrsAfterMatch st cIx lIx callId lamId)[j]? = st.instructions[j]? := by
  unfold instrsAfterMatch
  rw [List.getElem?_append_left (by simpa using hjlt),
    List.getElem?_set_ne (Ne.symm hjl), List.getElem?_set_ne (Ne.symm hjc)]

lemma instrsAfterMatch_declare (st : ScanState) (cIx lIx : InstrIx)
    (callId lamId : InstructionId) :
    (instrsAfterMatch st cIx lIx callId lamId)[st.instructions.length]? =
      some (.mk callId (.DeclareLocal ⟨⟨tempOf st.env, none⟩, .Let⟩)) := by
  unfold instrsAfterMatch
  rw [show st.instructions.length =
      ((st.instructions.set cIx (.mk callId (.LoadLocal ⟨tempOf st.env, none⟩))).set lIx
        (.mk lamId .Tombstone)).length by simp]
  exact List.getElem?_concat_length _ _

/-- Forward computation of `inlineMatchedCall` when validation rejects the
lambda for declaring parameters: the diagnostic is returned with the call
replacement and the tombstone already committed to the instruction vector
and no further mutation made. -/
lemma inlineMatchedCall_eq_err_params
    (st : ScanState) (block : BasicBlock) (i : Nat) (cIx lIx : InstrIx)
    (callInstr : Instruction) (lamId : InstructionId)
    (deps : List Operand) (lowered : HFunction)
    (hc : st.instructions[cIx]? = some callInstr)
    (hl : st.instructions[lIx]? = some (.mk lamId (.Function deps lowered)))
    (hne : cIx ≠ lIx)
    (hp : lowered.params.isEmpty = false) :
    inlineMatchedCall st block i cIx lIx = .err
      (.invalidReact "useMemo callbacks may not accept any arguments" none)
      { st with
        env := ⟨st.env.identifierId + 1, st.env.typeVarId + 1, st.env.blockId⟩,
        instructions := (st.instructions.set cIx
          (.mk callInstr.id (.LoadLocal ⟨tempOf st.env, none⟩))).set lIx
            (.mk lamId .Tombstone) } := by
  unfold inlineMatchedCall
  rw [hc]
  simp only [mkTemporary_eq, Instruction.id, Instruction.value]
  rw [List.getElem?_set_ne hne, hl]
  simp only [Instruction.id, Instruction.value, hp, Bool.not_false, if_true, tempOf]

/-- Forward computation of `inlineMatchedCall` when validation rejects an
async or generator lambda: as above, the diagnostic is returned with both
pre-validation mutations committed. -/
lemma inlineMatchedCall_eq_err_flags
    (st : ScanState) (block : BasicBlock) (i : Nat) (cIx lIx : InstrIx)
    (callInstr : Instruction) (lamId : InstructionId)
    (deps : List Operand) (lowered : HFunction)
    (hc : st.instructions[cIx]? = some callInstr)
    (hl : st.instructions[lIx]? = some (.mk lamId (.Function deps lowered)))
    (hne : cIx ≠ lIx)
    (hp : lowered.params = [])
    (hflag : (lowered.is_async || lowered.is_generator) = true) :
    inlineMatchedCall st block i cIx lIx = .err
      (.invalidReact "useMemo callbacks may not be async or generator functions" none)
      { st with
        env := ⟨st.env.identifierId + 1, st.env.typeVarId + 1, st.env.blockId⟩,
        instructions := (st.instructions.set cIx
          (.mk callInstr.id (.LoadLocal ⟨tempOf st.env, none⟩))).set lIx
            (.mk lamId .Tombstone) } := by
  unfold inlineMatchedCall
  rw [hc]
  simp only [mkTemporary_eq, Instruction.id, Instruction.value]
  rw [List.getElem?_set_ne hne, hl]
  simp only [Instruction.id, Instruction.value, hp, hflag, List.isEmpty_nil,
    Bool.not_true, Bool.false_eq_true, if_false, if_true, tempOf]

/-- Inversion: a successful `inlineMatchedCall` appends exactly one lambda
to the inlined list. -/
lemma inlineMatchedCall_ok_inlined
    {st : ScanState} {block : BasicBlock} {i : Nat} {cIx lIx : InstrIx}
    {st' : ScanState} {b' : BasicBlock}
    (h : inlineMatchedCall st block i cIx lIx = .ok st' b') :
    ∃ lam, st'.inlined = st.inlined ++ [lam] := by
  unfold inlineMatchedCall at h
  rw [mkTemporary_eq] at h
  repeat' split at h
  all_goals try exact ScanOut.noConfusion h
  rw [ScanOut.ok.injEq] at h
  obtain ⟨h1, -⟩ := h
  subst h1
  exact ⟨_, rfl⟩

/-- Inversion: across one block scan, the inlined list grows by at most one
lambda — the `break` after a match stops the scan of the block. -/
lemma scanLoop_ok_inlined :
    ∀ (ixs : List InstrIx) (st : ScanState) (block : BasicBlock) (i : Nat)
      (st' : ScanState) (b' : BasicBlock),
      scanLoop st block ixs i = .ok st' b' →
      st'.inlined = st.inlined ∨ ∃ lam, st'.inlined = st.inlined ++ [lam] := by
  intro ixs
  induction ixs with
  | nil =>
    intro st block i st' b' h
    simp only [scanLoop] at h
    injection h with h1 h2
    subst h1
    exact .inl rfl
  | cons x rest ih =>
    intro st block i st' b' h
    simp only [scanLoop] at h
    split at h
    · exact ScanOut.noConfusion h
    · split at h
      · split at h
        · exact ih { st with use_memo_globals := insertIx st.use_memo_globals x }
            block (i + 1) st' b' h
        · exact ih st block (i + 1) st' b' h
      · exact ih { st with functions := insertIx st.functions x }
          block (i + 1) st' b' h
      · split at h
        · exact ih st block (i + 1) st' b' h
        · split at h
          · split at h
            · exact ih st block (i + 1) st' b' h
            · split at h
              · rename_i heq
                injection h with h1 h2
                subst h1
                obtain ⟨lam, hl⟩ := inlineMatchedCall_ok_inlined heq
                exact .inr ⟨lam, hl⟩
              · exact ScanOut.noConfusion h
              · exact ScanOut.noConfusion h
          · exact ih st block (i + 1) st' b' h
      · exact ih st block (i + 1) st' b' h

/-- After the pattern at the head of the remaining snapshot matches, the
scan result does not depend on the rest of the block's instructions. -/
lemma scanLoop_match_stops
    (st : ScanState) (block : BasicBlock) (x : InstrIx) (rest : List InstrIx) (i : Nat)
    (cid : InstructionId) (callee : Operand) (args : List PlaceOrSpread) (place : Operand)
    (h1 : st.instructions[x]? = some (.mk cid (.Call callee args)))
    (h2 : st.use_memo_globals.contains callee.ix = true)
    (h3 : args.head? = some (.Place place))
    (h4 : st.functions.contains place.ix = true) :
    scanLoop st block (x :: rest) i = scanLoop st block [x] i := by
  simp only [scanLoop, h1, Instruction.value, h2, h3, h4, Bool.not_true,
    Bool.false_eq_true, if_false]

/-! ## Claim C6 -/

/-- C6: at most one useMemo call is inlined per basic block in one
invocation of the pass — a successful block scan extends the inlined list
by at most one element, and once the pattern matches the scan result is
independent of the remaining instructions of the block (the scan stops, so
later inlinable calls in the block are left for a later pass run). -/
theorem c6_at_most_one_inline_per_block :
    (∀ (ixs : List InstrIx) (st : ScanState) (block : BasicBlock) (i : Nat)
        (st' : ScanState) (b' : BasicBlock),
      scanLoop st block ixs i = .ok st' b' →
      st'.inlined = st.inlined ∨ ∃ lam, st'.inlined = st.inlined ++ [lam]) ∧
    (∀ (st : ScanState) (block : BasicBlock) (x : InstrIx) (rest : List InstrIx) (i : Nat)
        (cid : InstructionId) (callee : Operand) (args : List PlaceOrSpread) (place : Operand),
      st.instructions[x]? = some (.mk cid (.Call callee args)) →
      st.use_memo_globals.contains callee.ix = true →
      args.head? = some (.Place place) →
      st.functions.contains place.ix = true →
      scanLoop st block (x :: rest) i = scanLoop st block [x] i) :=
  ⟨scanLoop_ok_inlined, scanLoop_match_stops⟩

/-- The state used by several witnesses: the fixture's instruction vector
with the useMemo load and the lambda already tracked. -/
def stFixture : ScanState := ⟨env0, [0], [1], fGood.body.instructions, [], []⟩

/-- C6 witness: both clauses applied concretely — an empty scan inlines
nothing, and with a matching call at the head the scan ignores a trailing
instruction index. -/
theorem c6_at_most_one_inline_per_block_witness :
    scanLoop stFixture bb0 [] 0 = .ok stFixture bb0 ∧
    (stFixture.inlined = stFixture.inlined ∨
      ∃ lam, stFixture.inlined = stFixture.inlined ++ [lam]) ∧
    stFixture.instructions[2]? = some (.mk 3 (.Call ⟨0, none⟩ [.Place ⟨1, none⟩])) ∧
    scanLoop stFixture bb0 [2, 99] 2 = scanLoop stFixture bb0 [2] 2 :=
  ⟨rfl, c6_at_most_one_inline_per_block.1 [] stFixture bb0 0 stFixture bb0 rfl, rfl,
    c6_at_most_one_inline_per_block.2 stFixture bb0 2 [99] 2 3 ⟨0, none⟩
      [.Place ⟨1, none⟩] ⟨1, none⟩ rfl rfl rfl rfl⟩

/-! ## Claim C7 -/

/-- C7: a call instruction that does not match the inlinable pattern — its
callee is not a tracked load of the reserved global, or its first argument
is missing or a spread, or its first argument is not a tracked
function-literal instruction — is skipped: the scan continues with the
state (instructions included) completely unchanged and produces no
diagnostic for it. -/
theorem c7_non_matching_call_untouched
    (st : ScanState) (block : BasicBlock) (x : InstrIx) (rest : List InstrIx) (i : Nat)
    (cid : InstructionId) (callee : Operand) (args : List PlaceOrSpread)
    (h1 : st.instructions[x]? = some (.mk cid (.Call callee args)))
    (hskip : st.use_memo_globals.contains callee.ix = false ∨
      (∀ p : Operand, args.head? ≠ some (.Place p)) ∨
      (∃ p : Operand, args.head? = some (.Place p) ∧
        st.functions.contains p.ix = false)) :
    scanLoop st block (x :: rest) i = scanLoop st block rest (i + 1) := by
  cases hcont : st.use_memo_globals.contains callee.ix with
  | false => simp only [scanLoop, h1, Instruction.value, hcont, Bool.not_false, if_true]
  | true =>
    rcases hskip with h | h | ⟨p, hp, hf⟩
    · rw [hcont] at h; cases h
    · cases hh : args.head? with
      | none =>
        simp only [scanLoop, h1, Instruction.value, hcont, hh, Bool.not_true,
          Bool.false_eq_true, if_false]
      | some arg =>
        cases arg with
        | Place p => exact absurd hh (h p)
        | Spread p =>
          simp only [scanLoop, h1, Instruction.value, hcont, hh, Bool.not_true,
            Bool.false_eq_true, if_false]
    · simp only [scanLoop, h1, Instruction.value, hcont, hp, hf, Bool.not_true,
        Bool.not_false, Bool.false_eq_true, if_false, if_true]

/-- The fixture state with no tracked useMemo global. -/
def stNoGlobals : ScanState := ⟨env0, [], [], fGood.body.instructions, [], []⟩

/-- C7 witness: with the reserved global untracked, the call at index 2 is
skipped and the scan moves on unchanged. -/
theorem c7_non_matching_call_untouched_witness :
    stNoGlobals.instructions[2]? = some (.mk 3 (.Call ⟨0, none⟩ [.Place ⟨1, none⟩])) ∧
    stNoGlobals.use_memo_globals.contains (0 : Nat) = false ∧
    scanLoop stNoGlobals bb0 [2, 0] 0 = scanLoop stNoGlobals bb0 [0] 1 :=
  ⟨rfl, rfl,
    c7_non_matching_call_untouched stNoGlobals bb0 2 [0] 0 3 ⟨0, none⟩
      [.Place ⟨1, none⟩] rfl (.inl rfl)⟩

/-! ## Claim C4 -/

/-- C4: inlining a matched useMemo call replaces the call instruction in
place — the same instruction index holds, with the same instruction id, a
load of the new temporary — while every other instruction entry (and hence
every operand index it contains) is left untouched, except the moved-out
function literal which becomes a tombstone keeping its id; the only other
change to the instruction sequence is the appended declare. -/
theorem c4_call_replaced_in_place
    (st : ScanState) (block : BasicBlock) (i : Nat) (cIx lIx : InstrIx)
    (callInstr : Instruction) (lamId : InstructionId)
    (deps : List Operand) (lowered : HFunction)
    (hc : st.instructions[cIx]? = some callInstr)
    (hl : st.instructions[lIx]? = some (.mk lamId (.Function deps lowered)))
    (hne : cIx ≠ lIx)
    (hp : lowered.params = [])
    (ha : lowered.is_async = false)
    (hg : lowered.is_generator = false) :
    ∃ st' block',
      inlineMatchedCall st block i cIx lIx = .ok st' block' ∧
      st'.instructions[cIx]? =
        some (.mk callInstr.id (.LoadLocal ⟨tempOf st.env, none⟩)) ∧
      st'.instructions[lIx]? = some (.mk lamId .Tombstone) ∧
      (∀ j, j ≠ cIx → j ≠ lIx → j < st.instructions.length →
        st'.instructions[j]? = st.instructions[j]?) ∧
      st'.instructions.length = st.instructions.length + 1 := by
  have hclt : cIx < st.instructions.length := (List.getElem?_eq_some_iff.mp hc).1
  have hllt : lIx < st.instructions.length := (List.getElem?_eq_some_iff.mp hl).1
  refine ⟨_, _,
    inlineMatchedCall_eq_ok st block i cIx lIx callInstr lamId deps lowered
      hc hl hne hp ha hg, ?_, ?_, ?_, ?_⟩
  · exact instrsAfterMatch_call st cIx lIx callInstr.id lamId hclt hne
  · exact instrsAfterMatch_lambda st cIx lIx callInstr.id lamId hllt
  · intro j hjc hjl hjlt
    exact instrsAfterMatch_other st cIx lIx j callInstr.id lamId hjc hjl hjlt
  · exact instrsAfterMatch_length st cIx lIx callInstr.id lamId

/-- C4 witness: the theorem at the fixture — call at index 2, lambda at
index 1. -/
theorem c4_call_replaced_in_place_witness :
    stFixture.instructions[2]? = some (.mk 3 (.Call ⟨0, none⟩ [.Place ⟨1, none⟩])) ∧
    stFixture.instructions[1]? = some (.mk 2 (.Function [] lamGood)) ∧
    (2 : Nat) ≠ 1 ∧ lamGood.params = [] ∧ lamGood.is_async = false ∧
    lamGood.is_generator = false ∧
    (∃ st' block',
      inlineMatchedCall stFixture bb0 2 2 1 = .ok st' block' ∧
      st'.instructions[2]? =
        some (.mk (Instruction.mk 3 (.Call ⟨0, none⟩ [.Place ⟨1, none⟩])).id
          (.LoadLocal ⟨tempOf stFixture.env, none⟩)) ∧
      st'.instructions[1]? = some (.mk 2 .Tombstone) ∧
      (∀ j, j ≠ 2 → j ≠ 1 → j < stFixture.instructions.length →
        st'.instructions[j]? = stFixture.instructions[j]?) ∧
      st'.instructions.length = stFixture.instructions.length + 1) :=
  ⟨rfl, rfl, by decide, rfl, rfl, rfl,
    c4_call_replaced_in_place stFixture bb0 2 2 1 _ 2 [] lamGood rfl rfl
      (by decide) rfl rfl rfl⟩

/-! ## Claim C8 -/

/-- C8: every temporary identifier the pass allocates to hold a callback's
result carries the fixed display name `"t"` — both as constructed and as
it appears in the in-place load and the appended declare of a successful
match. -/
theorem c8_temporary_display_name :
    (∀ e : Env, (mkTemporary e).1.name = some "t") ∧
    (∀ (st : ScanState) (block : BasicBlock) (i : Nat) (cIx lIx : InstrIx)
        (callInstr : Instruction) (lamId : InstructionId)
        (deps : List Operand) (lowered : HFunction),
      st.instructions[cIx]? = some callInstr →
      st.instructions[lIx]? = some (.mk lamId (.Function deps lowered)) →
      cIx ≠ lIx → lowered.params = [] → lowered.is_async = false →
      lowered.is_generator = false →
      ∃ (st' : ScanState) (block' : BasicBlock) (temp : Identifier),
        inlineMatchedCall st block i cIx lIx = .ok st' block' ∧
        temp.name = some "t" ∧
        st'.instructions[cIx]? = some (.mk callInstr.id (.LoadLocal ⟨temp, none⟩)) ∧
        st'.instructions[st.instructions.length]? =
          some (.mk callInstr.id (.DeclareLocal ⟨⟨temp, none⟩, .Let⟩))) := by
  refine ⟨fun e => rfl, ?_⟩
  intro st block i cIx lIx callInstr lamId deps lowered hc hl hne hp ha hg
  have hclt : cIx < st.instructions.length := (List.getElem?_eq_some_iff.mp hc).1
  refine ⟨_, _, tempOf st.env,
    inlineMatchedCall_eq_ok st block i cIx lIx callInstr lamId deps lowered
      hc hl hne hp ha hg, rfl, ?_, ?_⟩
  · exact instrsAfterMatch_call st cIx lIx callInstr.id lamId hclt hne
  · exact instrsAfterMatch_declare st cIx lIx callInstr.id lamId

/-- C8 witness: the theorem at the fixture, plus the construction clause at
the fixture environment. -/
theorem c8_temporary_display_name_witness :
    (mkTemporary env0).1.name = some "t" ∧
    (∃ (st' : ScanState) (block' : BasicBlock) (temp : Identifier),
      inlineMatchedCall stFixture bb0 2 2 1 = .ok st' block' ∧
      temp.name = some "t" ∧
      st'.instructions[2]? =
        some (.mk (Instruction.mk 3 (.Call ⟨0, none⟩ [.Place ⟨1, none⟩])).id
          (.LoadLocal ⟨temp, none⟩)) ∧
      st'.instructions[stFixture.instructions.length]? =
        some (.mk (Instruction.mk 3 (.Call ⟨0, none⟩ [.Place ⟨1, none⟩])).id
          (.DeclareLocal ⟨⟨temp, none⟩, .Let⟩))) :=
  ⟨c8_temporary_display_name.1 env0,
    c8_temporary_display_name.2 stFixture bb0 2 2 1 _ 2 [] lamGood rfl rfl
      (by decide) rfl rfl rfl⟩

/-! ## Lemmas about the return-rewriting loop (for C3) -/

/-- The store instruction appended for a rewritten return. -/
def storeInstrFor (iid : InstructionId) (tmp : Identifier) (rt : ReturnTerminal) : Instruction :=
  .mk iid (.StoreLocal ⟨⟨tmp, none⟩, .Reassign⟩ ⟨rt.value.ix, none⟩)

lemma rewriteReturnsBlocks_instrs_append (iid : InstructionId) (tmp : Identifier)
    (cid : BlockId) :
    ∀ (blocks : List BasicBlock) (instrs : List Instruction),
      ∃ added, (rewriteReturnsBlocks iid tmp cid blocks instrs).2 = instrs ++ added := by
  intro blocks
  induction blocks with
  | nil => intro instrs; exact ⟨[], by simp [rewriteReturnsBlocks]⟩
  | cons b rest ih =>
    intro instrs
    cases hT : b.terminal.value with
    | Return rt =>
      obtain ⟨a2, ha2⟩ := ih (instrs ++ [storeInstrFor iid tmp rt])
      refine ⟨storeInstrFor iid tmp rt :: a2, ?_⟩
      simp only [rewriteReturnsBlocks, hT]
      rw [show instrs ++ storeInstrFor iid tmp rt :: a2 =
        (instrs ++ [storeInstrFor iid tmp rt]) ++ a2 by simp]
      exact ha2
    | Goto t => simpa only [rewriteReturnsBlocks, hT] using ih instrs
    | If t => simpa only [rewriteReturnsBlocks, hT] using ih instrs
    | Label t => simpa only [rewriteReturnsBlocks, hT] using ih instrs

lemma rewriteReturnsBlocks_length (iid : InstructionId) (tmp : Identifier)
    (cid : BlockId) :
    ∀ (blocks : List BasicBlock) (instrs : List Instruction),
      (rewriteReturnsBlocks iid tmp cid blocks instrs).1.length = blocks.length := by
  intro blocks
  induction blocks with
  | nil => intro instrs; simp [rewriteReturnsBlocks]
  | cons b rest ih =>
    intro instrs
    cases hT : b.terminal.value <;>
      simp only [rewriteReturnsBlocks, hT, List.length_cons] <;>
      rw [ih]

lemma rewriteReturnsBlocks_no_return (iid : InstructionId) (tmp : Identifier)
    (cid : BlockId) :
    ∀ (blocks : List BasicBlock) (instrs : List Instruction),
      ∀ b' ∈ (rewriteReturnsBlocks iid tmp cid blocks instrs).1,
        ∀ rt, b'.terminal.value ≠ .Return rt := by
  intro blocks
  induction blocks with
  | nil => intro instrs b' hb'; simp [rewriteReturnsBlocks] at hb'
  | cons b rest ih =>
    intro instrs b' hb' rt hrt
    cases hT : b.terminal.value with
    | Return rt0 =>
      simp only [rewriteReturnsBlocks, hT, List.mem_cons] at hb'
      rcases hb' with hb' | hb'
      · subst hb'; exact TerminalValue.noConfusion hrt
      · exact ih _ b' hb' rt hrt
    | Goto t =>
      simp only [rewriteReturnsBlocks, hT, List.mem_cons] at hb'
      rcases hb' with hb' | hb'
      · subst hb'; rw [hT] at hrt; exact TerminalValue.noConfusion hrt
      · exact ih _ b' hb' rt hrt
    | If t =>
      simp only [rewriteReturnsBlocks, hT, List.mem_cons] at hb'
      rcases hb' with hb' | hb'
      · subst hb'; rw [hT] at hrt; exact TerminalValue.noConfusion hrt
      · exact ih _ b' hb' rt hrt
    | Label t =>
      simp only [rewriteReturnsBlocks, hT, List.mem_cons] at hb'
      rcases hb' with hb' | hb'
      · subst hb'; rw [hT] at hrt; exact TerminalValue.noConfusion hrt
      · exact ih _ b' hb' rt hrt

lemma rewriteReturnsBlocks_getElem (iid : InstructionId) (tmp : Identifier)
    (cid : BlockId) :
    ∀ (blocks : List BasicBlock) (instrs : List Instruction) (k : Nat) (b : BasicBlock),
      blocks[k]? = some b →
      (∀ rt, b.terminal.value = .Return rt →
        ∃ six : InstrIx,
          (rewriteReturnsBlocks iid tmp cid blocks instrs).1[k]? =
            some { b with
              instructions := b.instructions ++ [six],
              terminal := ⟨b.terminal.id, .Goto ⟨cid, .Break⟩⟩ } ∧
          (rewriteReturnsBlocks iid tmp cid blocks instrs).2[six]? =
            some (storeInstrFor iid tmp rt)) ∧
      ((∀ rt, b.terminal.value ≠ .Return rt) →
        (rewriteReturnsBlocks iid tmp cid blocks instrs).1[k]? = some b) := by
  intro blocks
  induction blocks with
  | nil => intro instrs k b hk; simp at hk
  | cons hd rest ih =>
    intro instrs k b hk
    cases k with
    | zero =>
      rw [List.getElem?_cons_zero, Option.some_inj] at hk
      subst hk
      cases hT : hd.terminal.value with
      | Return rt0 =>
        constructor
        · intro rt hrt
          have hrteq : rt0 = rt := by injection hrt
          subst hrteq
          refine ⟨instrs.length, ?_, ?_⟩
          · simp only [rewriteReturnsBlocks, hT, List.getElem?_cons_zero]
          · simp only [rewriteReturnsBlocks, hT]
            obtain ⟨a2, ha2⟩ := rewriteReturnsBlocks_instrs_append iid tmp cid rest
              (instrs ++ [storeInstrFor iid tmp rt0])
            simp only [storeInstrFor] at ha2 ⊢
            rw [ha2, List.append_assoc,
              List.getElem?_append_right (Nat.le_refl instrs.length)]
            simp
        · intro hno
          exact absurd rfl (hno rt0)
      | Goto t =>
        refine ⟨fun rt hrt => absurd hrt (fun h => TerminalValue.noConfusion h),
          fun _ => ?_⟩
        simp only [rewriteReturnsBlocks, hT, List.getElem?_cons_zero]
      | If t =>
        refine ⟨fun rt hrt => absurd hrt (fun h => TerminalValue.noConfusion h),
          fun _ => ?_⟩
        simp only [rewriteReturnsBlocks, hT, List.getElem?_cons_zero]
      | Label t =>
        refine ⟨fun rt hrt => absurd hrt (fun h => TerminalValue.noConfusion h),
          fun _ => ?_⟩
        simp only [rewriteReturnsBlocks, hT, List.getElem?_cons_zero]
    | succ k' =>
      rw [List.getElem?_cons_succ] at hk
      cases hT : hd.terminal.value with
      | Return rt0 =>
        have := ih (instrs ++ [storeInstrFor iid tmp rt0]) k' b hk
        constructor
        · intro rt hrt
          obtain ⟨six, h1, h2⟩ := this.1 rt hrt
          exact ⟨six, by simpa only [rewriteReturnsBlocks, hT, List.getElem?_cons_succ]
            using h1, by simpa only [rewriteReturnsBlocks, hT] using h2⟩
        · intro hno
          simpa only [rewriteReturnsBlocks, hT, List.getElem?_cons_succ]
            using this.2 hno
      | Goto t =>
        have := ih instrs k' b hk
        exact ⟨fun rt hrt => by
            obtain ⟨six, h1, h2⟩ := this.1 rt hrt
            exact ⟨six, by simpa only [rewriteReturnsBlocks, hT, List.getElem?_cons_succ]
              using h1, by simpa only [rewriteReturnsBlocks, hT] using h2⟩,
          fun hno => by
            simpa only [rewriteReturnsBlocks, hT, List.getElem?_cons_succ]
              using this.2 hno⟩
      | If t =>
        have := ih instrs k' b hk
        exact ⟨fun rt hrt => by
            obtain ⟨six, h1, h2⟩ := this.1 rt hrt
            exact ⟨six, by simpa only [rewriteReturnsBlocks, hT, List.getElem?_cons_succ]
              using h1, by simpa only [rewriteReturnsBlocks, hT] using h2⟩,
          fun hno => by
            simpa only [rewriteReturnsBlocks, hT, List.getElem?_cons_succ]
              using this.2 hno⟩
      | Label t =>
        have := ih instrs k' b hk
        exact ⟨fun rt hrt => by
            obtain ⟨six, h1, h2⟩ := this.1 rt hrt
            exact ⟨six, by simpa only [rewriteReturnsBlocks, hT, List.getElem?_cons_succ]
              using h1, by simpa only [rewriteReturnsBlocks, hT] using h2⟩,
          fun hno => by
            simpa only [rewriteReturnsBlocks, hT, List.getElem?_cons_succ]
              using this.2 hno⟩

/-! ## Claim C3 -/

/-- C3: during one inlining, every block of the moved-in lambda body with a
return terminal is rewritten — a store-local of the returned operand into
the temporary is appended (at a fresh index of the lambda's instruction
vector, reusing the call's instruction id) and the terminal is replaced by
an unconditional goto of kind break targeting the one freshly allocated
continuation block id passed to the rewrite; all rewritten returns target
that same id, blocks without a return terminal are untouched, and no
return terminal survives among the rewritten blocks. -/
theorem c3_returns_rewritten (iid : InstructionId) (tmp : Identifier) (cid : BlockId)
    (blocks : List BasicBlock) (instrs : List Instruction) :
    (rewriteReturnsBlocks iid tmp cid blocks instrs).1.length = blocks.length ∧
    (∀ (k : Nat) (b : BasicBlock), blocks[k]? = some b →
      (∀ rt, b.terminal.value = .Return rt →
        ∃ six : InstrIx,
          (rewriteReturnsBlocks iid tmp cid blocks instrs).1[k]? =
            some { b with
              instructions := b.instructions ++ [six],
              terminal := ⟨b.terminal.id, .Goto ⟨cid, .Break⟩⟩ } ∧
          (rewriteReturnsBlocks iid tmp cid blocks instrs).2[six]? =
            some (storeInstrFor iid tmp rt)) ∧
      ((∀ rt, b.terminal.value ≠ .Return rt) →
        (rewriteReturnsBlocks iid tmp cid blocks instrs).1[k]? = some b)) ∧
    (∀ b' ∈ (rewriteReturnsBlocks iid tmp cid blocks instrs).1,
      ∀ rt, b'.terminal.value ≠ .Return rt) :=
  ⟨rewriteReturnsBlocks_length iid tmp cid blocks instrs,
    fun k b hk => rewriteReturnsBlocks_getElem iid tmp cid blocks instrs k b hk,
    rewriteReturnsBlocks_no_return iid tmp cid blocks instrs⟩

/-- C3 witness: the rewrite of the fixture lambda's single return block,
with the per-index clause instantiated at index 0. -/
theorem c3_returns_rewritten_witness :
    lamGood.body.blocks[0]? = some ⟨5, [0], 0, [], [], ⟨6, .Return ⟨⟨0, none⟩⟩⟩⟩ ∧
    (⟨6, .Return ⟨⟨0, none⟩⟩⟩ : Terminal).value = .Return ⟨⟨0, none⟩⟩ ∧
    (∃ six : InstrIx,
      (rewriteReturnsBlocks 3 tmp0 30 lamGood.body.blocks
        lamGood.body.instructions).1[0]? =
        some ⟨5, [0] ++ [six], 0, [], [], ⟨6, .Goto ⟨30, .Break⟩⟩⟩ ∧
      (rewriteReturnsBlocks 3 tmp0 30 lamGood.body.blocks
        lamGood.body.instructions).2[six]? =
        some (storeInstrFor 3 tmp0 ⟨⟨0, none⟩⟩)) := by
  have h := (c3_returns_rewritten 3 tmp0 30 lamGood.body.blocks
    lamGood.body.instructions).2.1 0 ⟨5, [0], 0, [], [], ⟨6, .Return ⟨⟨0, none⟩⟩⟩⟩ rfl
  exact ⟨rfl, rfl, h.1 ⟨⟨0, none⟩⟩ rfl⟩

/-! ## Claim C1 -/

lemma setSet_lambda (st : ScanState) (cIx lIx : InstrIx)
    (callId lamId : InstructionId) (hllt : lIx < st.instructions.length) :
    ((st.instructions.set cIx (.mk callId (.LoadLocal ⟨tempOf st.env, none⟩))).set lIx
        (.mk lamId .Tombstone))[lIx]? = some (.mk lamId .Tombstone) :=
  List.getElem?_set_self (by simpa using hllt)

lemma setSet_call (st : ScanState) (cIx lIx : InstrIx)
    (callId lamId : InstructionId) (hclt : cIx < st.instructions.length)
    (hne : cIx ≠ lIx) :
    ((st.instructions.set cIx (.mk callId (.LoadLocal ⟨tempOf st.env, none⟩))).set lIx
        (.mk lamId .Tombstone))[cIx]? =
      some (.mk callId (.LoadLocal ⟨tempOf st.env, none⟩)) := by
  rw [List.getElem?_set_ne (Ne.symm hne), List.getElem?_set_self hclt]

/-- C1 (amended): on a matched useMemo call whose lambda is invalid (it
declares parameters, or is async or a generator), the pass returns a typed
"invalid usage" diagnostic — but the tombstoning of the function-literal
instruction and the in-place replacement of the call instruction, both
performed before validation, remain committed: on error the function's
instruction sequence is observably changed. -/
theorem c1_error_commits_mutations
    (st : ScanState) (block : BasicBlock) (i : Nat) (cIx lIx : InstrIx)
    (callInstr : Instruction) (lamId : InstructionId)
    (deps : List Operand) (lowered : HFunction)
    (hc : st.instructions[cIx]? = some callInstr)
    (hl : st.instructions[lIx]? = some (.mk lamId (.Function deps lowered)))
    (hne : cIx ≠ lIx)
    (hinvalid : lowered.params ≠ [] ∨ lowered.is_async = true ∨
      lowered.is_generator = true) :
    ∃ (d : Diagnostic) (st' : ScanState),
      inlineMatchedCall st block i cIx lIx = .err d st' ∧
      (∃ msg, d = .invalidReact msg none) ∧
      st'.instructions[lIx]? = some (.mk lamId .Tombstone) ∧
      st'.instructions[cIx]? =
        some (.mk callInstr.id (.LoadLocal ⟨tempOf st.env, none⟩)) := by
  have hclt : cIx < st.instructions.length := (List.getElem?_eq_some_iff.mp hc).1
  have hllt : lIx < st.instructions.length := (List.getElem?_eq_some_iff.mp hl).1
  by_cases hp : lowered.params = []
  · have hflag : (lowered.is_async || lowered.is_generator) = true := by
      rcases hinvalid with h | h | h
      · exact absurd hp h
      · simp [h]
      · simp [h]
    refine ⟨_, _,
      inlineMatchedCall_eq_err_flags st block i cIx lIx callInstr lamId deps lowered
        hc hl hne hp hflag, ⟨_, rfl⟩, ?_, ?_⟩
    · exact setSet_lambda st cIx lIx callInstr.id lamId hllt
    · exact setSet_call st cIx lIx callInstr.id lamId hclt hne
  · have hpe : lowered.params.isEmpty = false := by
      cases hq : lowered.params with
      | nil => exact absurd hq hp
      | cons a l => rfl
    refine ⟨_, _,
      inlineMatchedCall_eq_err_params st block i cIx lIx callInstr lamId deps lowered
        hc hl hne hpe, ⟨_, rfl⟩, ?_, ?_⟩
    · exact setSet_lambda st cIx lIx callInstr.id lamId hllt
    · exact setSet_call st cIx lIx callInstr.id lamId hclt hne

/-- The fixture state for the async lambda. -/
def stAsync : ScanState := ⟨env0, [0], [1], fAsync.body.instructions, [], []⟩

/-- C1 witness: the amended statement at the async-lambda fixture. -/
theorem c1_error_commits_mutations_witness :
    stAsync.instructions[2]? = some (.mk 3 (.Call ⟨0, none⟩ [.Place ⟨1, none⟩])) ∧
    stAsync.instructions[1]? = some (.mk 2 (.Function [] lamAsync)) ∧
    lamAsync.is_async = true ∧
    (∃ (d : Diagnostic) (st' : ScanState),
      inlineMatchedCall stAsync bb0 2 2 1 = .err d st' ∧
      (∃ msg, d = .invalidReact msg none) ∧
      st'.instructions[1]? = some (.mk 2 .Tombstone) ∧
      st'.instructions[2]? =
        some (.mk (Instruction.mk 3 (.Call ⟨0, none⟩ [.Place ⟨1, none⟩])).id
          (.LoadLocal ⟨tempOf stAsync.env, none⟩))) :=
  ⟨rfl, rfl, rfl,
    c1_error_commits_mutations stAsync bb0 2 2 1 _ 2 [] lamAsync rfl rfl
      (by decide) (.inr (.inl rfl))⟩

/-- C1 counterexample: running the whole pass on a function whose useMemo
lambda is async returns the typed diagnostic, yet the returned function's
instruction sequence has the function literal tombstoned and the call
replaced by a load — the function is observably changed on error, against
the claim's atomicity. -/
theorem c1_counterexample :
    (∃ (fn' : HFunction) (env' : Env),
      inlineUseMemo env0 fAsync =
        .err (.invalidReact "useMemo callbacks may not be async or generator functions" none)
          fn' env' ∧
      fn'.body.instructions[1]? = some (.mk 2 .Tombstone) ∧
      fn'.body.instructions[2]? = some (.mk 3 (.LoadLocal ⟨tmp0, none⟩))) ∧
    fAsync.body.instructions[1]? = some (.mk 2 (.Function [] lamAsync)) ∧
    (InstructionValue.Function [] lamAsync) ≠ InstructionValue.Tombstone :=
  ⟨⟨_, _, rfl, rfl, rfl⟩, rfl, fun h => nomatch h⟩

end Hir
